import Mathlib

/-!
Shallow embedding of the time-synchronized transcript buffer and playback
scheduler implemented in `static/script.js` of the Third_Ear repository.

The client keeps a single mutable array `transcriptBuffer` of transcript
items `{type, text, endTime}`, re-sorted by `endTime` on every insertion
(`Array.prototype.sort` with comparator `(a, b) => a.endTime - b.endTime`,
which is a stable ascending sort), and a periodic timer (`displayInterval`,
100 ms) whose callback `checkBufferAndDisplay` releases every buffered item
whose `endTime` is at most the audio element's `currentTime`, appending the
text to the per-channel textareas and to the interleaved bubble feed.

The embedding models the whole client state as a record and each socket /
DOM handler as a state transformer.  Times are modelled as rationals (the
JavaScript values are float64; only order matters here).  Two ghost fields
instrument the state for specification purposes without affecting any
computation: every buffered item carries its arrival index (`Arrival.idx`,
the order in which the insertion handlers ran during the current run), and
the state records the full sequences of inserted and released items.
-/

namespace ThirdEar

/-- Channel tag of a transcript item: `'raw'` or `'corrected'` in the source. -/
inductive Channel
  | raw
  | corrected
  deriving DecidableEq, Repr

/-- A transcript item as buffered by `script.js`:
`{ type, text, endTime }` (from `raw_transcript_update` /
`corrected_transcript_update` payloads). -/
structure TimedEvent where
  type : Channel
  text : String
  endTime : ℚ
  deriving DecidableEq, Repr

/-- A buffered item together with its ghost arrival index (the position of
the insertion among all insertions of the current run).  The index is pure
instrumentation: no comparison or branch of the embedded code reads it. -/
structure Arrival where
  idx : ℕ
  ev : TimedEvent
  deriving DecidableEq, Repr

/-- A JavaScript value as carried by a socket message field.  `num` and
`str` are the well-typed cases; `null` stands for any value on which the
handler's method calls (`end_time.toFixed`, `text.substring`) throw —
a missing field, `null`, or a value of the wrong type.  (Socket.IO payloads
are JSON, so `NaN` cannot arrive: `JSON.stringify(NaN)` is `null`.) -/
inductive JValue
  | num (q : ℚ)
  | str (s : String)
  | null
  deriving DecidableEq, Repr

/-- Payload of a `raw_transcript_update` / `corrected_transcript_update`
message: `{ text, end_time }`. -/
structure UpdateData where
  text : JValue
  end_time : JValue
  deriving DecidableEq, Repr

/-- The handler body first evaluates `data.end_time.toFixed(2)` and
`data.text.substring(0, 50)` (in the `console.log` call) and then pushes;
if either field is not of the right type the method call throws and the
push on the line below is never reached.  `parseData` returns `some` with
the payload exactly when the handler reaches the push. -/
def parseData (d : UpdateData) : Option (String × ℚ) :=
  match d.end_time, d.text with
  | JValue.num q, JValue.str t => some (t, q)
  | _, _ => none

/-- Full client state of `script.js`.  DOM surfaces are modelled by the
data appended to them: `rawArea` / `correctedArea` are the lines of the two
textareas, `bubbles` the interleaved chat feed.  `displayInterval` is
`true` iff the periodic timer handle is non-null.  `released` and
`inserted` are ghost observation sequences (in order) of the items
delivered by `checkBufferAndDisplay` and of the items pushed by the update
handlers during the current run. -/
structure ClientState where
  transcriptBuffer : List Arrival
  displayInterval : Bool
  nextIdx : ℕ
  rawArea : List String
  correctedArea : List String
  bubbles : List (String × Channel)
  released : List Arrival
  inserted : List Arrival
  statusMsg : String
  statusType : String
  buttonDisabled : Bool
  buttonText : String
  deriving DecidableEq, Repr

/-- Insert `a` into `l` after every element whose `endTime` is `≤ a`'s.
This is the position a freshly pushed element ends up in under the stable
ascending sort `transcriptBuffer.sort((a, b) => a.endTime - b.endTime)`. -/
def insertSorted (a : Arrival) : List Arrival → List Arrival
  | [] => [a]
  | b :: l =>
    if b.ev.endTime ≤ a.ev.endTime then b :: insertSorted a l
    else a :: b :: l

/-- Model of `transcriptBuffer.sort((a, b) => a.endTime - b.endTime)`:
a stable ascending sort by `endTime` (left-to-right insertion sort,
inserting each element after its ties, which computes exactly the stable
ascending reordering that ECMAScript guarantees for `Array.prototype.sort`
with this comparator). -/
def sortBuffer (l : List Arrival) : List Arrival :=
  l.foldl (fun acc a => insertSorted a acc) []

/-- Common body of the two transcript-update handlers: push
`{ type: c, text: t, endTime: q }` onto the buffer and re-sort by
`endTime`.  The ghost arrival index and insertion trace are recorded. -/
def pushEvent (c : Channel) (t : String) (q : ℚ) (s : ClientState) : ClientState :=
  let a : Arrival := ⟨s.nextIdx, ⟨c, t, q⟩⟩
  { s with
    transcriptBuffer := sortBuffer (s.transcriptBuffer ++ [a])
    nextIdx := s.nextIdx + 1
    inserted := s.inserted ++ [a] }

/-- `socket.on('raw_transcript_update', ...)`: on a well-typed payload,
push the raw item and re-sort; on a malformed payload the handler throws
before the push and the state is unchanged. -/
def onRawTranscriptUpdate (d : UpdateData) (s : ClientState) : ClientState :=
  match parseData d with
  | some (t, q) => pushEvent Channel.raw t q s
  | none => s

/-- `socket.on('corrected_transcript_update', ...)`: same as the raw
handler with type `'corrected'`. -/
def onCorrectedTranscriptUpdate (d : UpdateData) (s : ClientState) : ClientState :=
  match parseData d with
  | some (t, q) => pushEvent Channel.corrected t q s
  | none => s

/-- One pass of the `while` loop of `checkBufferAndDisplay`: split the
buffer into the prefix of items with `endTime ≤ t` (shifted and displayed,
in order) and the remaining suffix. -/
def releaseReady (t : ℚ) : List Arrival → List Arrival × List Arrival
  | [] => ([], [])
  | a :: l =>
    if a.ev.endTime ≤ t then
      (a :: (releaseReady t l).1, (releaseReady t l).2)
    else ([], a :: l)

/-- Displaying one shifted item: `'raw'` items are appended to the raw
textarea (prefixed `"Raw: "`) and to the bubble feed; `'corrected'` items
to the corrected textarea (prefixed `"Corrected: "`) and to the bubble
feed.  The ghost `released` trace records the delivery. -/
def displayItem (s : ClientState) (a : Arrival) : ClientState :=
  match a.ev.type with
  | Channel.raw =>
    { s with
      rawArea := s.rawArea ++ ["Raw: " ++ a.ev.text]
      bubbles := s.bubbles ++ [(a.ev.text, Channel.raw)]
      released := s.released ++ [a] }
  | Channel.corrected =>
    { s with
      correctedArea := s.correctedArea ++ ["Corrected: " ++ a.ev.text]
      bubbles := s.bubbles ++ [(a.ev.text, Channel.corrected)]
      released := s.released ++ [a] }

/-- `checkBufferAndDisplay` (the timer callback), with `t` the value read
from `audioElement.currentTime` and `ended` the value of
`audioElement.ended`:
if the buffer is empty the function returns at the top guard
(`if (!audioElement || transcriptBuffer.length === 0) return;`);
otherwise the `while` loop shifts and displays every item with
`endTime ≤ t`, and finally, if the buffer is now empty and the audio has
ended and the timer handle is set, the timer is cancelled
(`clearInterval(displayInterval); displayInterval = null;`).
`checkStop` is that final conditional (lines 126-131 of `script.js`),
split out as its own definition. -/
def checkStop (ended : Bool) (s' : ClientState) : ClientState :=
  if s'.transcriptBuffer.isEmpty && ended && s'.displayInterval then
    { s' with displayInterval := false }
  else s'

def checkBufferAndDisplay (t : ℚ) (ended : Bool) (s : ClientState) : ClientState :=
  if s.transcriptBuffer.isEmpty then s
  else
    checkStop ended
      ((releaseReady t s.transcriptBuffer).1.foldl displayItem
        { s with transcriptBuffer := (releaseReady t s.transcriptBuffer).2 })

/-- The error line `*** ERROR: ... ***` appended to both textareas by the
`processing_error` handler. -/
def errorLine (err : String) : String :=
  "*** ERROR: " ++ err ++ " ***"

/-- `socket.on('processing_error', ...)`: set the status indicator to the
error, cancel the display timer, re-enable the button, and append the
distinguished error line to both textareas.  The buffer, the bubble feed
and the ghost traces are untouched. -/
def onProcessingError (err : String) (s : ClientState) : ClientState :=
  { s with
    statusMsg := "Error: " ++ err
    statusType := "error"
    displayInterval := false
    buttonDisabled := false
    buttonText := "Process Sample Audio 1"
    rawArea := s.rawArea ++ [errorLine err]
    correctedArea := s.correctedArea ++ [errorLine err] }

/-- `socket.on('processing_finished', ...)`: update the status indicator
and re-enable the button; the display timer keeps running and the buffer
is untouched. -/
def onProcessingFinished (status : String) (s : ClientState) : ClientState :=
  { s with
    statusMsg := "Processing finished: " ++ status
    statusType := "finished"
    buttonDisabled := false
    buttonText := "Process Sample Audio 1" }

/-- `socket.on('disconnect', ...)`: set the status indicator, cancel the
display timer, and, if the button currently reads `"Processing..."`,
set it disabled.  No line is appended to any transcript surface and the
button is never re-enabled here. -/
def onDisconnect (s : ClientState) : ClientState :=
  let s1 := { s with
    statusMsg := "Disconnected. Please refresh."
    statusType := "error"
    displayInterval := false }
  if s1.buttonText = "Processing..." then { s1 with buttonDisabled := true }
  else s1

/-- The process-button click handler, on the path where `audio.play()`
succeeds: clear both textareas, the bubble feed and the buffer, clear any
existing timer, disable the button, set the status, start the display
timer, and ask the server to start processing.  The ghost run traces are
reset with the surfaces they mirror. -/
def onProcessButtonClick (s : ClientState) : ClientState :=
  { s with
    rawArea := []
    correctedArea := []
    bubbles := []
    transcriptBuffer := []
    statusMsg := "Processing audio..."
    statusType := "processing"
    displayInterval := true
    buttonDisabled := true
    buttonText := "Processing..."
    released := []
    inserted := []
    nextIdx := 0 }

/-- The `audio.play().catch(...)` branch and the audio element's `error`
listener: set the status indicator, re-enable the button and clear the
timer.  Nothing is appended to any transcript surface. -/
def onPlayFailure (s : ClientState) : ClientState :=
  { s with
    statusMsg := "Error playing audio."
    statusType := "error"
    buttonDisabled := false
    buttonText := "Process Sample Audio 1"
    displayInterval := false }

/-- The external inputs dispatched to the single-threaded event loop. -/
inductive Op
  | rawUpdate (d : UpdateData)
  | correctedUpdate (d : UpdateData)
  | tick (t : ℚ) (ended : Bool)
  | procError (err : String)
  | procFinished (status : String)
  | disconnect
  | click
  | playFailure
  deriving DecidableEq, Repr

/-- One dispatch of the event loop.  A `tick` fires the timer callback only
while the timer handle is set (`clearInterval` removes the callback). -/
def step (s : ClientState) : Op → ClientState
  | Op.rawUpdate d => onRawTranscriptUpdate d s
  | Op.correctedUpdate d => onCorrectedTranscriptUpdate d s
  | Op.tick t ended => if s.displayInterval then checkBufferAndDisplay t ended s else s
  | Op.procError err => onProcessingError err s
  | Op.procFinished status => onProcessingFinished status s
  | Op.disconnect => onDisconnect s
  | Op.click => onProcessButtonClick s
  | Op.playFailure => onPlayFailure s

/-- Run the event loop over a sequence of inputs. -/
def exec (s : ClientState) : List Op → ClientState
  | [] => s
  | op :: ops => exec (step s op) ops

/-- Client state right after `DOMContentLoaded`: empty buffer, no timer,
status `Ready`, button enabled. -/
def initState : ClientState :=
  { transcriptBuffer := []
    displayInterval := false
    nextIdx := 0
    rawArea := []
    correctedArea := []
    bubbles := []
    released := []
    inserted := []
    statusMsg := "Ready"
    statusType := "idle"
    buttonDisabled := false
    buttonText := "Process Sample Audio 1" }

/-! ### Ordering predicates -/

/-- Strict order on buffered items by `(endTime, arrival index)`.  A buffer
sorted by `lexLt` is exactly a buffer sorted ascending by `endTime` in
which ties stand in arrival order — the state the stable re-sort on every
insertion maintains. -/
def lexLt (a b : Arrival) : Prop :=
  a.ev.endTime < b.ev.endTime ∨ (a.ev.endTime = b.ev.endTime ∧ a.idx < b.idx)

instance : DecidableRel lexLt := fun a b =>
  decidable_of_iff
    (a.ev.endTime < b.ev.endTime ∨ (a.ev.endTime = b.ev.endTime ∧ a.idx < b.idx))
    Iff.rfl

theorem lexLt_le {a b : Arrival} (h : lexLt a b) : a.ev.endTime ≤ b.ev.endTime := by
  rcases h with h | ⟨h, _⟩
  · exact le_of_lt h
  · exact le_of_eq h

/-! ### Lemmas about the stable sort -/

theorem insertSorted_perm (a : Arrival) :
    ∀ l : List Arrival, (insertSorted a l).Perm (a :: l)
  | [] => List.Perm.refl _
  | b :: l => by
    rw [insertSorted]
    by_cases hb : b.ev.endTime ≤ a.ev.endTime
    · rw [if_pos hb]
      exact ((insertSorted_perm a l).cons b).trans (List.Perm.swap a b l)
    · rw [if_neg hb]

theorem insertSorted_eq_append (a : Arrival) :
    ∀ l : List Arrival, (∀ c ∈ l, c.ev.endTime ≤ a.ev.endTime) →
      insertSorted a l = l ++ [a]
  | [], _ => rfl
  | b :: l, h => by
    rw [insertSorted, if_pos (h b (List.mem_cons_self b l)),
      insertSorted_eq_append a l (fun c hc => h c (List.mem_cons_of_mem b hc))]
    rfl

theorem insertSorted_pairwise (a : Arrival) :
    ∀ l : List Arrival, l.Pairwise lexLt → (∀ b ∈ l, b.idx < a.idx) →
      (insertSorted a l).Pairwise lexLt
  | [], _, _ => List.pairwise_singleton lexLt a
  | b :: l, hp, hidx => by
    rw [insertSorted]
    rcases List.pairwise_cons.mp hp with ⟨hbl, hpl⟩
    by_cases hb : b.ev.endTime ≤ a.ev.endTime
    · rw [if_pos hb]
      refine List.pairwise_cons.mpr ⟨?_, insertSorted_pairwise a l hpl
        (fun c hc => hidx c (List.mem_cons_of_mem b hc))⟩
      intro c hc
      have hc' : c ∈ a :: l := (insertSorted_perm a l).mem_iff.mp hc
      rcases List.mem_cons.mp hc' with rfl | hc'
      · rcases lt_or_eq_of_le hb with h | h
        · exact Or.inl h
        · exact Or.inr ⟨h, hidx b (List.mem_cons_self b l)⟩
      · exact hbl c hc'
    · rw [if_neg hb]
      have hab : a.ev.endTime < b.ev.endTime := lt_of_not_le hb
      refine List.pairwise_cons.mpr ⟨?_, hp⟩
      intro c hc
      rcases List.mem_cons.mp hc with rfl | hc
      · exact Or.inl hab
      · exact Or.inl (lt_of_lt_of_le hab (lexLt_le (hbl c hc)))

theorem foldl_insertSorted_perm :
    ∀ (l acc : List Arrival),
      (l.foldl (fun acc a => insertSorted a acc) acc).Perm (acc ++ l)
  | [], acc => by simp
  | b :: l, acc => by
    rw [List.foldl_cons]
    refine (foldl_insertSorted_perm l (insertSorted b acc)).trans ?_
    exact ((insertSorted_perm b acc).append_right l).trans List.perm_middle.symm

theorem sortBuffer_perm (l : List Arrival) : (sortBuffer l).Perm l := by
  simpa using foldl_insertSorted_perm l []

theorem foldl_insertSorted_of_sorted :
    ∀ (l acc : List Arrival), (acc ++ l).Pairwise lexLt →
      l.foldl (fun acc a => insertSorted a acc) acc = acc ++ l
  | [], acc, _ => by simp
  | b :: l, acc, h => by
    have hacc : ∀ c ∈ acc, c.ev.endTime ≤ b.ev.endTime := by
      intro c hc
      exact lexLt_le ((List.pairwise_append.mp h).2.2 c hc b (List.mem_cons_self b l))
    rw [List.foldl_cons, insertSorted_eq_append b acc hacc,
      foldl_insertSorted_of_sorted l (acc ++ [b]) (by simpa using h)]
    simp

theorem sortBuffer_of_sorted (l : List Arrival) (h : l.Pairwise lexLt) :
    sortBuffer l = l := by
  simpa using foldl_insertSorted_of_sorted l [] (by simpa using h)

theorem sortBuffer_sorted_append (l : List Arrival) (x : Arrival)
    (h : l.Pairwise lexLt) : sortBuffer (l ++ [x]) = insertSorted x l := by
  rw [sortBuffer, List.foldl_append, ← sortBuffer]
  rw [sortBuffer_of_sorted l h]
  rfl

/-! ### Lemmas about the release loop -/

theorem releaseReady_append (t : ℚ) :
    ∀ l : List Arrival, (releaseReady t l).1 ++ (releaseReady t l).2 = l
  | [] => rfl
  | a :: l => by
    rw [releaseReady]
    by_cases h : a.ev.endTime ≤ t
    · rw [if_pos h]
      simpa using releaseReady_append t l
    · rw [if_neg h]
      rfl

theorem releaseReady_fst_ready (t : ℚ) :
    ∀ l : List Arrival, ∀ a ∈ (releaseReady t l).1, a.ev.endTime ≤ t
  | [] => by intro a ha; simp [releaseReady] at ha
  | b :: l => by
    intro a ha
    rw [releaseReady] at ha
    by_cases h : b.ev.endTime ≤ t
    · rw [if_pos h] at ha
      rcases List.mem_cons.mp ha with rfl | ha
      · exact h
      · exact releaseReady_fst_ready t l a ha
    · rw [if_neg h] at ha
      simp at ha

theorem releaseReady_snd_not_ready (t : ℚ) :
    ∀ l : List Arrival, l.Pairwise lexLt →
      ∀ b ∈ (releaseReady t l).2, ¬ b.ev.endTime ≤ t
  | [] => by intro _ b hb; simp [releaseReady] at hb
  | a :: l => by
    intro hp b hb
    rcases List.pairwise_cons.mp hp with ⟨hal, hpl⟩
    rw [releaseReady] at hb
    by_cases h : a.ev.endTime ≤ t
    · rw [if_pos h] at hb
      exact releaseReady_snd_not_ready t l hpl b hb
    · rw [if_neg h] at hb
      rcases List.mem_cons.mp hb with rfl | hb
      · exact h
      · intro hle
        exact h (le_trans (lexLt_le (hal b hb)) hle)

theorem releaseReady_fst_filter (t : ℚ) :
    ∀ l : List Arrival, l.Pairwise lexLt →
      (releaseReady t l).1 = l.filter (fun a => decide (a.ev.endTime ≤ t))
  | [] => by intro _; rfl
  | a :: l => by
    intro hp
    rcases List.pairwise_cons.mp hp with ⟨hal, hpl⟩
    rw [releaseReady]
    by_cases h : a.ev.endTime ≤ t
    · rw [if_pos h]
      rw [releaseReady_fst_filter t l hpl]
      simp [h]
    · rw [if_neg h]
      have : ∀ b ∈ a :: l, ¬ b.ev.endTime ≤ t := by
        intro b hb
        rcases List.mem_cons.mp hb with rfl | hb
        · exact h
        · intro hle
          exact h (le_trans (lexLt_le (hal b hb)) hle)
      rw [List.filter_eq_nil_iff.mpr (by intro b hb; simpa using this b hb)]

/-! ### Field-effect lemmas for the handlers -/

theorem displayItem_fields (s : ClientState) (a : Arrival) :
    (displayItem s a).released = s.released ++ [a]
    ∧ (displayItem s a).transcriptBuffer = s.transcriptBuffer
    ∧ (displayItem s a).inserted = s.inserted
    ∧ (displayItem s a).nextIdx = s.nextIdx
    ∧ (displayItem s a).displayInterval = s.displayInterval := by
  cases h : a.ev.type <;> simp [displayItem, h]

theorem foldl_displayItem :
    ∀ (l : List Arrival) (s0 : ClientState),
      (l.foldl displayItem s0).released = s0.released ++ l
      ∧ (l.foldl displayItem s0).transcriptBuffer = s0.transcriptBuffer
      ∧ (l.foldl displayItem s0).inserted = s0.inserted
      ∧ (l.foldl displayItem s0).nextIdx = s0.nextIdx
      ∧ (l.foldl displayItem s0).displayInterval = s0.displayInterval
  | [], s0 => by simp
  | a :: l, s0 => by
    rw [List.foldl_cons]
    rcases foldl_displayItem l (displayItem s0 a) with ⟨h1, h2, h3, h4, h5⟩
    rcases displayItem_fields s0 a with ⟨g1, g2, g3, g4, g5⟩
    refine ⟨?_, ?_, ?_, ?_, ?_⟩
    · rw [h1, g1, List.append_assoc]
      rfl
    · rw [h2, g2]
    · rw [h3, g3]
    · rw [h4, g4]
    · rw [h5, g5]

theorem onDisconnect_fields (s : ClientState) :
    (onDisconnect s).transcriptBuffer = s.transcriptBuffer
    ∧ (onDisconnect s).released = s.released
    ∧ (onDisconnect s).inserted = s.inserted
    ∧ (onDisconnect s).nextIdx = s.nextIdx
    ∧ (onDisconnect s).displayInterval = false
    ∧ (onDisconnect s).rawArea = s.rawArea
    ∧ (onDisconnect s).correctedArea = s.correctedArea
    ∧ (onDisconnect s).bubbles = s.bubbles
    ∧ (onDisconnect s).statusType = "error" := by
  rw [onDisconnect]
  split <;> simp

/-- Characterization of one timer callback in terms of `releaseReady`:
the buffer becomes the not-yet-ready suffix, the ready prefix is appended
to the release trace, and the ghost insertion trace and index are
untouched.  (This holds for the empty-buffer early return too, since
`releaseReady` returns `([], [])` there.) -/
theorem checkStop_fields (ended : Bool) (s' : ClientState) :
    (checkStop ended s').transcriptBuffer = s'.transcriptBuffer
    ∧ (checkStop ended s').released = s'.released
    ∧ (checkStop ended s').inserted = s'.inserted
    ∧ (checkStop ended s').nextIdx = s'.nextIdx
    ∧ (checkStop ended s').rawArea = s'.rawArea
    ∧ (checkStop ended s').correctedArea = s'.correctedArea
    ∧ (checkStop ended s').bubbles = s'.bubbles := by
  rw [checkStop]
  split <;> simp

theorem checkStop_interval (ended : Bool) (s' : ClientState) :
    (checkStop ended s').displayInterval = s'.displayInterval
    ∨ ((checkStop ended s').displayInterval = false
        ∧ s'.transcriptBuffer = [] ∧ ended = true) := by
  rw [checkStop]
  split
  · next hcond =>
    rcases Bool.and_eq_true _ _ |>.mp hcond with ⟨h12, _⟩
    rcases Bool.and_eq_true _ _ |>.mp h12 with ⟨hbuf, hend⟩
    exact Or.inr ⟨rfl, by simpa [List.isEmpty_iff] using hbuf, hend⟩
  · exact Or.inl rfl

theorem checkBufferAndDisplay_spec (t : ℚ) (ended : Bool) (s : ClientState) :
    (checkBufferAndDisplay t ended s).transcriptBuffer
        = (releaseReady t s.transcriptBuffer).2
    ∧ (checkBufferAndDisplay t ended s).released
        = s.released ++ (releaseReady t s.transcriptBuffer).1
    ∧ (checkBufferAndDisplay t ended s).inserted = s.inserted
    ∧ (checkBufferAndDisplay t ended s).nextIdx = s.nextIdx := by
  rw [checkBufferAndDisplay]
  by_cases he : s.transcriptBuffer.isEmpty
  · rw [if_pos he]
    have hb : s.transcriptBuffer = [] := by simpa [List.isEmpty_iff] using he
    rw [hb]
    simp [releaseReady]
  · rw [if_neg he]
    rcases foldl_displayItem (releaseReady t s.transcriptBuffer).1
      { s with transcriptBuffer := (releaseReady t s.transcriptBuffer).2 } with
      ⟨h1, h2, h3, h4, _⟩
    rcases checkStop_fields ended ((releaseReady t s.transcriptBuffer).1.foldl displayItem
      { s with transcriptBuffer := (releaseReady t s.transcriptBuffer).2 }) with
      ⟨g1, g2, g3, g4, _⟩
    exact ⟨by rw [g1, h2], by rw [g2, h1], by rw [g3, h3], by rw [g4, h4]⟩

/-- The timer callback can change the timer handle only by cancelling it,
and only in the branch where the buffer has just drained and the audio has
ended. -/
theorem checkBufferAndDisplay_interval (t : ℚ) (ended : Bool) (s : ClientState) :
    (checkBufferAndDisplay t ended s).displayInterval = s.displayInterval
    ∨ ((checkBufferAndDisplay t ended s).displayInterval = false
        ∧ (checkBufferAndDisplay t ended s).transcriptBuffer = []
        ∧ ended = true) := by
  rw [checkBufferAndDisplay]
  by_cases he : s.transcriptBuffer.isEmpty
  · rw [if_pos he]
    exact Or.inl rfl
  · rw [if_neg he]
    rcases foldl_displayItem (releaseReady t s.transcriptBuffer).1
      { s with transcriptBuffer := (releaseReady t s.transcriptBuffer).2 } with
      ⟨_, _, _, _, h5⟩
    rcases checkStop_interval ended ((releaseReady t s.transcriptBuffer).1.foldl displayItem
      { s with transcriptBuffer := (releaseReady t s.transcriptBuffer).2 }) with h | ⟨hf, hb, hend⟩
    · exact Or.inl (by rw [h, h5])
    · refine Or.inr ⟨hf, ?_, hend⟩
      rcases checkStop_fields ended ((releaseReady t s.transcriptBuffer).1.foldl displayItem
        { s with transcriptBuffer := (releaseReady t s.transcriptBuffer).2 }) with
        ⟨g1, _⟩
      rw [g1, hb]

/-! ### The reachable-state invariant -/

/-- Invariant of every reachable client state.
`sortedBuf`: the buffer is sorted by `endTime` with ties in arrival order
(the state the stable re-sort on every insertion maintains).
`bufLt` / `relLt`: all recorded arrival indices are below the counter.
`cross`: a released item never has a larger arrival index than a buffered
item with the same `endTime`.
`relStable`: among released items with equal `endTime`, arrival order is
preserved.
`conserve`: released items plus buffered items are exactly the inserted
items (as a multiset).
`insIdx`: the insertion trace carries indices `0, 1, 2, ...` in order —
the ghost index is the arrival order of the current run. -/
structure Inv (s : ClientState) : Prop where
  sortedBuf : s.transcriptBuffer.Pairwise lexLt
  bufLt : ∀ a ∈ s.transcriptBuffer, a.idx < s.nextIdx
  relLt : ∀ a ∈ s.released, a.idx < s.nextIdx
  cross : ∀ a ∈ s.released, ∀ b ∈ s.transcriptBuffer,
    a.ev.endTime = b.ev.endTime → a.idx < b.idx
  relStable : s.released.Pairwise
    (fun a b => a.ev.endTime = b.ev.endTime → a.idx < b.idx)
  conserve : (s.released ++ s.transcriptBuffer).Perm s.inserted
  insIdx : s.inserted.map Arrival.idx = List.range s.nextIdx

theorem inv_initState : Inv initState := by
  constructor <;> simp [initState]

theorem inv_pushEvent {s : ClientState} (h : Inv s) (c : Channel)
    (t : String) (q : ℚ) : Inv (pushEvent c t q s) := by
  have hsort : sortBuffer (s.transcriptBuffer ++ [⟨s.nextIdx, ⟨c, t, q⟩⟩])
      = insertSorted ⟨s.nextIdx, ⟨c, t, q⟩⟩ s.transcriptBuffer :=
    sortBuffer_sorted_append _ _ h.sortedBuf
  have hperm : (sortBuffer (s.transcriptBuffer ++ [⟨s.nextIdx, ⟨c, t, q⟩⟩])).Perm
      ((⟨s.nextIdx, ⟨c, t, q⟩⟩ : Arrival) :: s.transcriptBuffer) := by
    rw [hsort]
    exact insertSorted_perm _ _
  constructor
  · show (sortBuffer (s.transcriptBuffer ++ [⟨s.nextIdx, ⟨c, t, q⟩⟩])).Pairwise lexLt
    rw [hsort]
    exact insertSorted_pairwise _ _ h.sortedBuf (fun b hb => h.bufLt b hb)
  · intro a ha
    rcases List.mem_cons.mp (hperm.mem_iff.mp ha) with rfl | ha
    · exact Nat.lt_succ_self _
    · exact Nat.lt_succ_of_lt (h.bufLt a ha)
  · intro a ha
    exact Nat.lt_succ_of_lt (h.relLt a ha)
  · intro a ha b hb _
    rcases List.mem_cons.mp (hperm.mem_iff.mp hb) with rfl | hb
    · exact h.relLt a ha
    · exact h.cross a ha b hb (by assumption)
  · exact h.relStable
  · show (s.released ++ sortBuffer (s.transcriptBuffer ++ [⟨s.nextIdx, ⟨c, t, q⟩⟩])).Perm
      (s.inserted ++ [⟨s.nextIdx, ⟨c, t, q⟩⟩])
    refine ((sortBuffer_perm _).append_left s.released).trans ?_
    rw [← List.append_assoc]
    exact h.conserve.append_right _
  · show (s.inserted ++ [(⟨s.nextIdx, ⟨c, t, q⟩⟩ : Arrival)]).map Arrival.idx
      = List.range (s.nextIdx + 1)
    rw [List.map_append, h.insIdx, List.range_succ]
    rfl

theorem inv_checkBufferAndDisplay {s : ClientState} (h : Inv s)
    (t : ℚ) (ended : Bool) : Inv (checkBufferAndDisplay t ended s) := by
  rcases checkBufferAndDisplay_spec t ended s with ⟨hb, hr, hi, hn⟩
  have hsplit := releaseReady_append t s.transcriptBuffer
  have hpair : ((releaseReady t s.transcriptBuffer).1
      ++ (releaseReady t s.transcriptBuffer).2).Pairwise lexLt := by
    rw [hsplit]
    exact h.sortedBuf
  rcases List.pairwise_append.mp hpair with ⟨hp1, hp2, hp12⟩
  have hmem1 : ∀ a ∈ (releaseReady t s.transcriptBuffer).1,
      a ∈ s.transcriptBuffer := by
    intro a ha
    rw [← hsplit]
    exact List.mem_append_left _ ha
  have hmem2 : ∀ a ∈ (releaseReady t s.transcriptBuffer).2,
      a ∈ s.transcriptBuffer := by
    intro a ha
    rw [← hsplit]
    exact List.mem_append_right _ ha
  constructor
  · rw [hb]
    exact hp2
  · intro a ha
    rw [hn]
    exact h.bufLt a (hmem2 a (hb ▸ ha))
  · intro a ha
    rw [hr] at ha
    rw [hn]
    rcases List.mem_append.mp ha with ha | ha
    · exact h.relLt a ha
    · exact h.bufLt a (hmem1 a ha)
  · intro a ha b hbm heq
    rw [hr] at ha
    rw [hb] at hbm
    rcases List.mem_append.mp ha with ha | ha
    · exact h.cross a ha b (hmem2 b hbm) heq
    · rcases hp12 a ha b hbm with hlt | ⟨_, hidx⟩
      · exact absurd heq (ne_of_lt hlt)
      · exact hidx
  · rw [hr]
    refine List.pairwise_append.mpr ⟨h.relStable, ?_, ?_⟩
    · exact hp1.imp (fun {a b} hab heq => by
        rcases hab with hlt | ⟨_, hidx⟩
        · exact absurd heq (ne_of_lt hlt)
        · exact hidx)
    · intro a ha b hbm heq
      exact h.cross a ha b (hmem1 b hbm) heq
  · rw [hr, hb, hi, List.append_assoc, hsplit]
    exact h.conserve
  · rw [hi, hn]
    exact h.insIdx

theorem inv_step {s : ClientState} (h : Inv s) (op : Op) : Inv (step s op) := by
  cases op with
  | rawUpdate d =>
    show Inv (onRawTranscriptUpdate d s)
    rw [onRawTranscriptUpdate]
    cases parseData d with
    | some p => exact inv_pushEvent h Channel.raw p.1 p.2
    | none => exact h
  | correctedUpdate d =>
    show Inv (onCorrectedTranscriptUpdate d s)
    rw [onCorrectedTranscriptUpdate]
    cases parseData d with
    | some p => exact inv_pushEvent h Channel.corrected p.1 p.2
    | none => exact h
  | tick t ended =>
    show Inv (if s.displayInterval then checkBufferAndDisplay t ended s else s)
    split
    · exact inv_checkBufferAndDisplay h t ended
    · exact h
  | procError err =>
    exact ⟨h.sortedBuf, h.bufLt, h.relLt, h.cross, h.relStable, h.conserve, h.insIdx⟩
  | procFinished status =>
    exact ⟨h.sortedBuf, h.bufLt, h.relLt, h.cross, h.relStable, h.conserve, h.insIdx⟩
  | disconnect =>
    show Inv (onDisconnect s)
    rcases onDisconnect_fields s with ⟨f1, f2, f3, f4, _⟩
    exact ⟨f1 ▸ h.sortedBuf, f4 ▸ f1 ▸ h.bufLt, f4 ▸ f2 ▸ h.relLt,
      by rw [f1, f2]; exact h.cross, f2 ▸ h.relStable,
      by rw [f1, f2, f3]; exact h.conserve, by rw [f3, f4]; exact h.insIdx⟩
  | click =>
    show Inv (onProcessButtonClick s)
    constructor <;> simp [onProcessButtonClick]
  | playFailure =>
    exact ⟨h.sortedBuf, h.bufLt, h.relLt, h.cross, h.relStable, h.conserve, h.insIdx⟩

theorem inv_exec {s : ClientState} (h : Inv s) :
    ∀ ops : List Op, Inv (exec s ops)
  | [] => h
  | op :: ops => inv_exec (inv_step h op) ops

/-! ### Global release ordering under the no-late-straggler condition -/

/-- A payload is "not late" for state `s` when, if well-typed, its
`end_time` is at least the `endTime` of every item already released.
(Spec §9 records that the source leaves late stragglers unresolved:
they are inserted and shown late; this predicate carves out the runs the
global ordering guarantee is about.) -/
def noLateData (s : ClientState) (d : UpdateData) : Prop :=
  match parseData d with
  | some p => ∀ r ∈ s.released, r.ev.endTime ≤ p.2
  | none => True

instance (s : ClientState) (d : UpdateData) : Decidable (noLateData s d) :=
  match hp : parseData d with
  | some p => decidable_of_iff (∀ r ∈ s.released, r.ev.endTime ≤ p.2)
      (by rw [noLateData, hp])
  | none => decidable_of_iff True (by rw [noLateData, hp])

/-- Lift of `noLateData` to a single event-loop input: only the two
insertion inputs are constrained. -/
def opLateOK (s : ClientState) : Op → Prop
  | Op.rawUpdate d => noLateData s d
  | Op.correctedUpdate d => noLateData s d
  | _ => True

instance (s : ClientState) (op : Op) : Decidable (opLateOK s op) := by
  cases op <;> simp only [opLateOK] <;> infer_instance

/-- A run is good when every insertion is not late at the state where it
arrives. -/
def GoodRun (s : ClientState) : List Op → Prop
  | [] => True
  | op :: ops => opLateOK s op ∧ GoodRun (step s op) ops

instance GoodRun.instDecidable :
    (s : ClientState) → (ops : List Op) → Decidable (GoodRun s ops)
  | _, [] => isTrue trivial
  | s, op :: ops =>
    have : Decidable (GoodRun (step s op) ops) := GoodRun.instDecidable _ ops
    inferInstanceAs (Decidable (_ ∧ _))

/-- The ordering invariant: the sequence of released items is nondecreasing
in `endTime`, and every buffered item has `endTime` at least every released
item's. -/
structure OrdInv (s : ClientState) : Prop where
  relSorted : s.released.Pairwise (fun a b => a.ev.endTime ≤ b.ev.endTime)
  relBuf : ∀ r ∈ s.released, ∀ b ∈ s.transcriptBuffer,
    r.ev.endTime ≤ b.ev.endTime

theorem ordInv_initState : OrdInv initState :=
  ⟨List.Pairwise.nil, by intro r hr; simp [initState] at hr⟩

theorem ordInv_pushEvent {s : ClientState} (ho : OrdInv s) (c : Channel)
    (t : String) (q : ℚ) (hlate : ∀ r ∈ s.released, r.ev.endTime ≤ q) :
    OrdInv (pushEvent c t q s) := by
  have hperm : (sortBuffer (s.transcriptBuffer ++ [⟨s.nextIdx, ⟨c, t, q⟩⟩])).Perm
      (s.transcriptBuffer ++ [⟨s.nextIdx, ⟨c, t, q⟩⟩]) := sortBuffer_perm _
  constructor
  · exact ho.relSorted
  · intro r hr b hb
    rcases List.mem_append.mp (hperm.mem_iff.mp hb) with hb | hb
    · exact ho.relBuf r hr b hb
    · rcases List.mem_singleton.mp hb with rfl
      exact hlate r hr

theorem ordInv_checkBufferAndDisplay {s : ClientState} (h : Inv s)
    (ho : OrdInv s) (t : ℚ) (ended : Bool) :
    OrdInv (checkBufferAndDisplay t ended s) := by
  rcases checkBufferAndDisplay_spec t ended s with ⟨hb, hr, _, _⟩
  have hsplit := releaseReady_append t s.transcriptBuffer
  have hpair : ((releaseReady t s.transcriptBuffer).1
      ++ (releaseReady t s.transcriptBuffer).2).Pairwise lexLt := by
    rw [hsplit]
    exact h.sortedBuf
  rcases List.pairwise_append.mp hpair with ⟨hp1, _, hp12⟩
  have hmem1 : ∀ a ∈ (releaseReady t s.transcriptBuffer).1,
      a ∈ s.transcriptBuffer := by
    intro a ha
    rw [← hsplit]
    exact List.mem_append_left _ ha
  have hmem2 : ∀ a ∈ (releaseReady t s.transcriptBuffer).2,
      a ∈ s.transcriptBuffer := by
    intro a ha
    rw [← hsplit]
    exact List.mem_append_right _ ha
  constructor
  · rw [hr]
    refine List.pairwise_append.mpr ⟨ho.relSorted, hp1.imp (fun hab => lexLt_le hab), ?_⟩
    intro r hrm a ham
    exact ho.relBuf r hrm a (hmem1 a ham)
  · intro r hrm b hbm
    rw [hr] at hrm
    rw [hb] at hbm
    rcases List.mem_append.mp hrm with hrm | hrm
    · exact ho.relBuf r hrm b (hmem2 b hbm)
    · exact lexLt_le (hp12 r hrm b hbm)

theorem ordInv_step {s : ClientState} (h : Inv s) (ho : OrdInv s) (op : Op)
    (hok : opLateOK s op) : OrdInv (step s op) := by
  cases op with
  | rawUpdate d =>
    show OrdInv (onRawTranscriptUpdate d s)
    rw [onRawTranscriptUpdate]
    rw [opLateOK] at hok
    cases hp : parseData d with
    | some p =>
      rw [noLateData, hp] at hok
      exact ordInv_pushEvent ho Channel.raw p.1 p.2 hok
    | none => exact ho
  | correctedUpdate d =>
    show OrdInv (onCorrectedTranscriptUpdate d s)
    rw [onCorrectedTranscriptUpdate]
    rw [opLateOK] at hok
    cases hp : parseData d with
    | some p =>
      rw [noLateData, hp] at hok
      exact ordInv_pushEvent ho Channel.corrected p.1 p.2 hok
    | none => exact ho
  | tick t ended =>
    show OrdInv (if s.displayInterval then checkBufferAndDisplay t ended s else s)
    split
    · exact ordInv_checkBufferAndDisplay h ho t ended
    · exact ho
  | procError err => exact ⟨ho.relSorted, ho.relBuf⟩
  | procFinished status => exact ⟨ho.relSorted, ho.relBuf⟩
  | disconnect =>
    show OrdInv (onDisconnect s)
    rcases onDisconnect_fields s with ⟨f1, f2, _⟩
    exact ⟨f2 ▸ ho.relSorted, by rw [f1, f2]; exact ho.relBuf⟩
  | click =>
    show OrdInv (onProcessButtonClick s)
    exact ⟨List.Pairwise.nil, by intro r hr; simp [onProcessButtonClick] at hr⟩
  | playFailure => exact ⟨ho.relSorted, ho.relBuf⟩

theorem ordInv_exec {s : ClientState} (h : Inv s) (ho : OrdInv s) :
    ∀ ops : List Op, GoodRun s ops → OrdInv (exec s ops)
  | [], _ => ho
  | op :: ops, hg =>
    ordInv_exec (inv_step h op) (ordInv_step h ho op hg.1) ops hg.2

/-! ### Nothing happens after the timer is cancelled (except insertions) -/

/-- After `clearInterval`, any input other than a new button click leaves
the timer cancelled, releases nothing, and can only add to the buffer
(insertions still push — no other input removes buffered items). -/
theorem step_frozen {s : ClientState} (hI : s.displayInterval = false)
    (op : Op) (hop : op ≠ Op.click) :
    (step s op).displayInterval = false
    ∧ (step s op).released = s.released
    ∧ ∀ a : Arrival, s.transcriptBuffer.count a ≤ (step s op).transcriptBuffer.count a := by
  cases op with
  | rawUpdate d =>
    show (onRawTranscriptUpdate d s).displayInterval = false
      ∧ (onRawTranscriptUpdate d s).released = s.released
      ∧ ∀ a : Arrival, s.transcriptBuffer.count a
          ≤ (onRawTranscriptUpdate d s).transcriptBuffer.count a
    rw [onRawTranscriptUpdate]
    cases parseData d with
    | some p =>
      refine ⟨hI, rfl, ?_⟩
      intro a
      show s.transcriptBuffer.count a
        ≤ (pushEvent Channel.raw p.1 p.2 s).transcriptBuffer.count a
      show s.transcriptBuffer.count a
        ≤ (sortBuffer (s.transcriptBuffer ++ [⟨s.nextIdx, ⟨Channel.raw, p.1, p.2⟩⟩])).count a
      rw [List.Perm.count_eq (sortBuffer_perm _), List.count_append]
      exact Nat.le_add_right _ _
    | none => exact ⟨hI, rfl, fun a => Nat.le_refl _⟩
  | correctedUpdate d =>
    show (onCorrectedTranscriptUpdate d s).displayInterval = false
      ∧ (onCorrectedTranscriptUpdate d s).released = s.released
      ∧ ∀ a : Arrival, s.transcriptBuffer.count a
          ≤ (onCorrectedTranscriptUpdate d s).transcriptBuffer.count a
    rw [onCorrectedTranscriptUpdate]
    cases parseData d with
    | some p =>
      refine ⟨hI, rfl, ?_⟩
      intro a
      show s.transcriptBuffer.count a
        ≤ (pushEvent Channel.corrected p.1 p.2 s).transcriptBuffer.count a
      show s.transcriptBuffer.count a
        ≤ (sortBuffer (s.transcriptBuffer ++ [⟨s.nextIdx, ⟨Channel.corrected, p.1, p.2⟩⟩])).count a
      rw [List.Perm.count_eq (sortBuffer_perm _), List.count_append]
      exact Nat.le_add_right _ _
    | none => exact ⟨hI, rfl, fun a => Nat.le_refl _⟩
  | tick t ended =>
    show ((if s.displayInterval then checkBufferAndDisplay t ended s else s)).displayInterval = false
      ∧ ((if s.displayInterval then checkBufferAndDisplay t ended s else s)).released = s.released
      ∧ ∀ a : Arrival, s.transcriptBuffer.count a
          ≤ ((if s.displayInterval then checkBufferAndDisplay t ended s else s)).transcriptBuffer.count a
    rw [hI]
    exact ⟨hI, rfl, fun a => Nat.le_refl _⟩
  | procError err => exact ⟨rfl, rfl, fun a => Nat.le_refl _⟩
  | procFinished status => exact ⟨hI, rfl, fun a => Nat.le_refl _⟩
  | disconnect =>
    rcases onDisconnect_fields s with ⟨f1, f2, _, _, f5, _⟩
    refine ⟨f5, f2, fun a => ?_⟩
    show s.transcriptBuffer.count a ≤ (onDisconnect s).transcriptBuffer.count a
    rw [f1]
  | click => exact absurd rfl hop
  | playFailure => exact ⟨rfl, rfl, fun a => Nat.le_refl _⟩

theorem exec_frozen {s : ClientState} (hI : s.displayInterval = false) :
    ∀ ops : List Op, (∀ op ∈ ops, op ≠ Op.click) →
      (exec s ops).displayInterval = false
      ∧ (exec s ops).released = s.released
      ∧ ∀ a : Arrival, s.transcriptBuffer.count a ≤ (exec s ops).transcriptBuffer.count a
  | [], _ => ⟨hI, rfl, fun a => Nat.le_refl _⟩
  | op :: ops, hops => by
    rcases step_frozen hI op (hops op (List.mem_cons_self op ops)) with ⟨h1, h2, h3⟩
    rcases exec_frozen h1 ops (fun o ho => hops o (List.mem_cons_of_mem op ho)) with
      ⟨g1, g2, g3⟩
    exact ⟨g1, by rw [show exec s (op :: ops) = exec (step s op) ops from rfl, g2, h2],
      fun a => Nat.le_trans (h3 a) (g3 a)⟩

/-! ### Claim theorems -/

/-- C1, counterexample to the claim as stated: the release order is NOT
globally nondecreasing in `endTime` for every arrival order.  In the run
click; insert `a` with endTime 2; tick at clock 2 (releases `a`); insert
`b` with endTime 1 (a late straggler); tick at clock 2 (releases `b`),
the released `endTime` sequence is `[2, 1]`. -/
theorem C1_global_order_cex :
    ¬ (exec initState
        [Op.click,
         Op.rawUpdate ⟨JValue.str "a", JValue.num 2⟩,
         Op.tick 2 false,
         Op.rawUpdate ⟨JValue.str "b", JValue.num 1⟩,
         Op.tick 2 false]).released.Pairwise
      (fun a b => a.ev.endTime ≤ b.ev.endTime) := by
  decide

/-- C1 (amended).  Within a single timer tick, every buffered event whose
`endTime` is at most the clock reading at that tick is released in that
tick — never deferred (nothing left in the buffer is ready), the released
segment is exactly the ready prefix of the buffer, and that segment is in
ascending `endTime` order (second conjunct, for any state whose buffer
satisfies the reachable-state sortedness invariant).  Globally, across
both channels and regardless of arrival order, the events delivered to the
display surfaces are in nondecreasing `endTime` order in every run in
which no event is inserted with an `endTime` smaller than that of an
already-released event (first conjunct); without that proviso the claim
fails (`C1_global_order_cex`) — the late-straggler case the spec's §9
leaves open. -/
theorem C1_release_order :
    (∀ ops : List Op, GoodRun initState ops →
      (exec initState ops).released.Pairwise
        (fun a b => a.ev.endTime ≤ b.ev.endTime))
    ∧ (∀ (s : ClientState) (t : ℚ) (ended : Bool),
        s.transcriptBuffer.Pairwise lexLt →
          (∀ b ∈ (checkBufferAndDisplay t ended s).transcriptBuffer,
            ¬ b.ev.endTime ≤ t)
          ∧ (checkBufferAndDisplay t ended s).released
              = s.released
                ++ s.transcriptBuffer.filter (fun a => decide (a.ev.endTime ≤ t))
          ∧ (s.transcriptBuffer.filter
              (fun a => decide (a.ev.endTime ≤ t))).Pairwise
                (fun a b => a.ev.endTime ≤ b.ev.endTime)) := by
  constructor
  · intro ops hg
    exact (ordInv_exec inv_initState ordInv_initState ops hg).relSorted
  · intro s t ended hs
    rcases checkBufferAndDisplay_spec t ended s with ⟨hb, hr, _, _⟩
    refine ⟨?_, ?_, ?_⟩
    · intro b hbm
      exact releaseReady_snd_not_ready t s.transcriptBuffer hs b (hb ▸ hbm)
    · rw [hr, releaseReady_fst_filter t s.transcriptBuffer hs]
    · exact (hs.filter _).imp (fun hab => lexLt_le hab)

def C1WitnessOps : List Op :=
  [Op.click,
   Op.rawUpdate ⟨JValue.str "a", JValue.num 2⟩,
   Op.correctedUpdate ⟨JValue.str "b", JValue.num 1⟩,
   Op.tick 1 false, Op.tick 2 false]

def C1WitnessState : ClientState :=
  exec initState [Op.click,
    Op.rawUpdate ⟨JValue.str "a", JValue.num 2⟩,
    Op.correctedUpdate ⟨JValue.str "b", JValue.num 1⟩]

theorem C1_release_order_witness :
    (exec initState C1WitnessOps).released.Pairwise
        (fun a b => a.ev.endTime ≤ b.ev.endTime)
    ∧ (∀ b ∈ (checkBufferAndDisplay 1 false C1WitnessState).transcriptBuffer,
        ¬ b.ev.endTime ≤ (1 : ℚ)) :=
  ⟨C1_release_order.1 C1WitnessOps (by decide),
   (C1_release_order.2 C1WitnessState 1 false (by decide)).1⟩

/-- C2 (code bug).  The claim says that at any tick at which the buffer is
empty and the audio has ended the scheduler stops itself — in particular
that when the clock completes while the buffer is already empty, a
subsequent tick cancels the timer.  The code's early return
(`if (!audioElement || transcriptBuffer.length === 0) return;`, line 96)
fires before the stop check on line 126, so such a tick leaves the timer
running forever (first conjunct: after click — timer set, buffer empty —
a tick with `ended = true` keeps `displayInterval` set), contradicting the
code's own comments (line 125: "If the buffer is empty and audio has
finished playing, stop the timer"; lines 230-232).  The stop fires only
when the buffer drains to empty within that same tick (second conjunct). -/
theorem C2_self_stop_bug :
    (exec initState [Op.click, Op.tick 5 true]).displayInterval = true
    ∧ (exec initState
        [Op.click,
         Op.rawUpdate ⟨JValue.str "a", JValue.num 1⟩,
         Op.tick 5 true]).displayInterval = false := by
  decide

/-- C3.  The scheduler never cancels its own timer on a tick that leaves
the buffer non-empty, even if the audio has already ended (first
conjunct), and never on a tick at which the audio has not ended — so a
momentarily empty buffer before stream completion never triggers self-stop
(second conjunct). -/
theorem C3_no_stop_while_nonempty (s : ClientState) (t : ℚ) (ended : Bool) :
    ((step s (Op.tick t ended)).transcriptBuffer ≠ [] →
      (step s (Op.tick t ended)).displayInterval = s.displayInterval)
    ∧ (ended = false →
      (step s (Op.tick t ended)).displayInterval = s.displayInterval) := by
  have hstep : step s (Op.tick t ended)
      = if s.displayInterval then checkBufferAndDisplay t ended s else s := rfl
  rw [hstep]
  by_cases hI : s.displayInterval
  · rw [if_pos hI]
    rcases checkBufferAndDisplay_interval t ended s with h | ⟨hf, hb, he⟩
    · exact ⟨fun _ => h, fun _ => h⟩
    · constructor
      · intro hne
        exact absurd hb hne
      · intro hef
        exact Bool.noConfusion (he.symm.trans hef)
  · rw [if_neg hI]
    exact ⟨fun _ => rfl, fun _ => rfl⟩

def C3WitnessState : ClientState :=
  exec initState [Op.click, Op.rawUpdate ⟨JValue.str "a", JValue.num 5⟩]

theorem C3_no_stop_while_nonempty_witness :
    (step C3WitnessState (Op.tick 0 true)).displayInterval
      = C3WitnessState.displayInterval
    ∧ (step C3WitnessState (Op.tick 0 false)).displayInterval
      = C3WitnessState.displayInterval :=
  ⟨(C3_no_stop_while_nonempty C3WitnessState 0 true).1 (by decide),
   (C3_no_stop_while_nonempty C3WitnessState 0 false).2 rfl⟩

/-- C4, counterexample to the claim as stated: the multiset of released
events does not always equal the multiset inserted.  In the run
click; insert `a` with endTime 5; `processing_error`, the inserted event is
never released (the timer is cancelled with the event still buffered), so
released = [] while inserted has one element. -/
theorem C4_no_loss_cex :
    ¬ (exec initState
        [Op.click,
         Op.rawUpdate ⟨JValue.str "a", JValue.num 5⟩,
         Op.procError "boom"]).released.Perm
      (exec initState
        [Op.click,
         Op.rawUpdate ⟨JValue.str "a", JValue.num 5⟩,
         Op.procError "boom"]).inserted := by
  decide

/-- C4 (amended).  Conservation: at every point of every run, the events
released so far together with the events still sitting in the buffer are
exactly (as a multiset) the events inserted so far — so no event is ever
duplicated or invented, and an event can only fail to be released by
remaining buffered (as after an error, or when the clock never reaches its
`endTime`).  Moreover no inserted event is released more than once: the
ghost arrival indices of the release trace are pairwise distinct. -/
theorem C4_conservation (ops : List Op) :
    ((exec initState ops).released
        ++ (exec initState ops).transcriptBuffer).Perm
      (exec initState ops).inserted
    ∧ ((exec initState ops).released.map Arrival.idx).Nodup := by
  have h := inv_exec inv_initState ops
  refine ⟨h.conserve, ?_⟩
  have hnd : (((exec initState ops).released
      ++ (exec initState ops).transcriptBuffer).map Arrival.idx).Nodup := by
    rw [(h.conserve.map Arrival.idx).nodup_iff, h.insIdx]
    exact List.nodup_range _
  rw [List.map_append] at hnd
  exact (List.nodup_append.mp hnd).1

/-- C5.  When `processing_error` arrives: the timer is cancelled at once;
the buffer is untouched; nothing new reaches the release trace, the bubble
feed, or the textareas except the distinguished `*** ERROR: ... ***` line
appended to each of the two logs (no normal `Raw: `/`Corrected: `
transcript line is produced); the status indicator shows the error; and —
whatever non-click inputs follow — none of the buffered events is ever
released, because the cancelled timer never fires again. -/
theorem C5_upstream_error (s : ClientState) (err : String) (ops : List Op)
    (hops : ∀ op ∈ ops, op ≠ Op.click) :
    (onProcessingError err s).displayInterval = false
    ∧ (onProcessingError err s).transcriptBuffer = s.transcriptBuffer
    ∧ (onProcessingError err s).released = s.released
    ∧ (onProcessingError err s).bubbles = s.bubbles
    ∧ (onProcessingError err s).rawArea = s.rawArea ++ [errorLine err]
    ∧ (onProcessingError err s).correctedArea = s.correctedArea ++ [errorLine err]
    ∧ (onProcessingError err s).statusType = "error"
    ∧ (exec (onProcessingError err s) ops).released = s.released := by
  refine ⟨rfl, rfl, rfl, rfl, rfl, rfl, rfl, ?_⟩
  exact (exec_frozen rfl ops hops).2.1

def C5WitnessState : ClientState :=
  exec initState [Op.click,
    Op.rawUpdate ⟨JValue.str "a", JValue.num 1⟩,
    Op.rawUpdate ⟨JValue.str "b", JValue.num 2⟩,
    Op.correctedUpdate ⟨JValue.str "c", JValue.num 3⟩]

theorem C5_upstream_error_witness :
    (onProcessingError "stt failed" C5WitnessState).displayInterval = false
    ∧ (exec (onProcessingError "stt failed" C5WitnessState)
        [Op.tick 99 true, Op.procFinished "done"]).released
      = C5WitnessState.released :=
  ⟨(C5_upstream_error C5WitnessState "stt failed"
      [Op.tick 99 true, Op.procFinished "done"] (by decide)).1,
   (C5_upstream_error C5WitnessState "stt failed"
      [Op.tick 99 true, Op.procFinished "done"] (by decide)).2.2.2.2.2.2.2⟩

/-- C6.  Ties are stable: the ghost arrival index is exactly the insertion
order of the run (the insertion trace carries indices `0, 1, 2, ...` in
order — first conjunct), and whenever two events with equal `endTime` are
both released, the one inserted first is released first (second conjunct:
along the release trace, equal `endTime` implies increasing arrival index).
This holds across arbitrary interleavings of insertions and ticks, because
the per-insertion re-sort is stable and the release loop pops from the
front. -/
theorem C6_tie_stability (ops : List Op) :
    (exec initState ops).inserted.map Arrival.idx
      = List.range (exec initState ops).nextIdx
    ∧ (exec initState ops).released.Pairwise
        (fun a b => a.ev.endTime = b.ev.endTime → a.idx < b.idx) := by
  have h := inv_exec inv_initState ops
  exact ⟨h.insIdx, h.relStable⟩

/-- C7, counterexample to the claim as stated: a channel event received
outside `Processing` is NOT ignored.  After `processing_error` the session
is terminal (`Errored`), yet a subsequent `raw_transcript_update` is still
inserted into the buffer — the handlers perform no state check. -/
theorem C7_state_gating_cex :
    (exec initState
      [Op.click, Op.procError "boom",
       Op.rawUpdate ⟨JValue.str "x", JValue.num 1⟩]).transcriptBuffer ≠ [] := by
  decide

/-- C7 (amended).  The two channel handlers insert unconditionally: for
EVERY client state — whatever the status, button or timer fields say, i.e.
in any session state — a well-formed channel event is pushed into the
buffer.  Reception outside `Processing` is not fatal, but the event is
buffered rather than ignored. -/
theorem C7_unconditional_insert (s : ClientState) (txt : String) (q : ℚ) :
    (⟨s.nextIdx, ⟨Channel.raw, txt, q⟩⟩ : Arrival)
      ∈ (onRawTranscriptUpdate ⟨JValue.str txt, JValue.num q⟩ s).transcriptBuffer
    ∧ (⟨s.nextIdx, ⟨Channel.corrected, txt, q⟩⟩ : Arrival)
      ∈ (onCorrectedTranscriptUpdate ⟨JValue.str txt, JValue.num q⟩ s).transcriptBuffer := by
  constructor
  · show (⟨s.nextIdx, ⟨Channel.raw, txt, q⟩⟩ : Arrival)
      ∈ sortBuffer (s.transcriptBuffer ++ [⟨s.nextIdx, ⟨Channel.raw, txt, q⟩⟩])
    exact (sortBuffer_perm _).mem_iff.mpr
      (List.mem_append_right _ (List.mem_singleton_self _))
  · show (⟨s.nextIdx, ⟨Channel.corrected, txt, q⟩⟩ : Arrival)
      ∈ sortBuffer (s.transcriptBuffer ++ [⟨s.nextIdx, ⟨Channel.corrected, txt, q⟩⟩])
    exact (sortBuffer_perm _).mem_iff.mpr
      (List.mem_append_right _ (List.mem_singleton_self _))

/-- C8.  A channel event whose `end_time` or `text` field is missing or
not of the right type is dropped without any state change: the handler
throws (in `data.end_time.toFixed(2)` / `data.text.substring(0, 50)`)
before the push, so the event is never buffered and hence never released,
and — since the state is unchanged — every subsequent input behaves
exactly as if the malformed event had never arrived. -/
theorem C8_malformed_dropped (s : ClientState) (d : UpdateData)
    (h : parseData d = none) :
    step s (Op.rawUpdate d) = s
    ∧ step s (Op.correctedUpdate d) = s
    ∧ ∀ ops : List Op, exec (step s (Op.rawUpdate d)) ops = exec s ops := by
  have h1 : step s (Op.rawUpdate d) = s := by
    show onRawTranscriptUpdate d s = s
    rw [onRawTranscriptUpdate, h]
  have h2 : step s (Op.correctedUpdate d) = s := by
    show onCorrectedTranscriptUpdate d s = s
    rw [onCorrectedTranscriptUpdate, h]
  exact ⟨h1, h2, fun ops => by rw [h1]⟩

theorem C8_malformed_dropped_witness :
    step initState (Op.rawUpdate ⟨JValue.null, JValue.num 2⟩) = initState
    ∧ step initState (Op.correctedUpdate ⟨JValue.null, JValue.num 2⟩) = initState :=
  ⟨(C8_malformed_dropped initState ⟨JValue.null, JValue.num 2⟩ rfl).1,
   (C8_malformed_dropped initState ⟨JValue.null, JValue.num 2⟩ rfl).2.1⟩

/-- C9, counterexample to the claim as stated: after a connection loss
mid-run — a terminal failure — the start control is NOT re-enabled (the
`disconnect` handler sets `processButton.disabled = true` when the button
reads `"Processing..."`) and NO status line is produced in any Sink
surface (both logs and the bubble feed are untouched; only the status
indicator changes). -/
theorem C9_reenable_cex :
    (exec initState [Op.click, Op.disconnect]).buttonDisabled = true
    ∧ (exec initState [Op.click, Op.disconnect]).rawArea = []
    ∧ (exec initState [Op.click, Op.disconnect]).bubbles = [] := by
  decide

/-- C9 (amended).  What the three terminal-failure paths actually do:
`processing_error` appends the distinguished error line to both Sink logs
and re-enables the button; an audio/clock failure re-enables the button
but writes only to the status indicator (no Sink line); a `disconnect`
writes only to the status indicator, and far from re-enabling the button,
explicitly disables it when it reads `"Processing..."`. -/
theorem C9_terminal_failures (s : ClientState) (err : String) :
    ((onProcessingError err s).buttonDisabled = false
      ∧ (onProcessingError err s).rawArea = s.rawArea ++ [errorLine err]
      ∧ (onProcessingError err s).statusType = "error")
    ∧ ((onPlayFailure s).buttonDisabled = false
      ∧ (onPlayFailure s).rawArea = s.rawArea
      ∧ (onPlayFailure s).statusType = "error")
    ∧ ((onDisconnect s).rawArea = s.rawArea
      ∧ (onDisconnect s).correctedArea = s.correctedArea
      ∧ (onDisconnect s).statusType = "error"
      ∧ (s.buttonText = "Processing..." →
          (onDisconnect s).buttonDisabled = true)) := by
  refine ⟨⟨rfl, rfl, rfl⟩, ⟨rfl, rfl, rfl⟩, ?_⟩
  rcases onDisconnect_fields s with ⟨_, _, _, _, _, f6, f7, _, f9⟩
  refine ⟨f6, f7, f9, ?_⟩
  intro hbt
  rw [onDisconnect]
  split
  · rfl
  · next hcond => exact absurd hbt hcond

theorem C9_terminal_failures_witness :
    (onDisconnect (exec initState [Op.click])).buttonDisabled = true :=
  ((C9_terminal_failures (exec initState [Op.click]) "e").2.2).2.2.2 rfl

/-- C10.  The `processing_error` handler changes only the timer handle,
the status indicator, the button state and the appended error lines: the
buffer contents, the bubble feed, the release trace and the ghost
insertion data are all untouched (first five conjuncts).  Afterwards, no
non-click input ever removes an event from the buffer (releases are
impossible with the timer cancelled; insertions only add), so a non-empty
buffer stays non-empty until the next user-initiated run reset — and that
reset (`onProcessButtonClick`) is what empties it. -/
theorem C10_error_frame (s : ClientState) (err : String) (ops : List Op)
    (hops : ∀ op ∈ ops, op ≠ Op.click) :
    (onProcessingError err s).transcriptBuffer = s.transcriptBuffer
    ∧ (onProcessingError err s).inserted = s.inserted
    ∧ (onProcessingError err s).nextIdx = s.nextIdx
    ∧ (onProcessingError err s).bubbles = s.bubbles
    ∧ (onProcessingError err s).released = s.released
    ∧ (∀ a : Arrival, s.transcriptBuffer.count a
        ≤ (exec (onProcessingError err s) ops).transcriptBuffer.count a)
    ∧ (s.transcriptBuffer ≠ [] →
        (exec (onProcessingError err s) ops).transcriptBuffer ≠ [])
    ∧ (onProcessButtonClick s).transcriptBuffer = [] := by
  have hfr := exec_frozen
    (rfl : (onProcessingError err s).displayInterval = false) ops hops
  refine ⟨rfl, rfl, rfl, rfl, rfl, hfr.2.2, ?_, rfl⟩
  intro hne hcontra
  rcases List.exists_mem_of_ne_nil s.transcriptBuffer hne with ⟨a, ha⟩
  have hpos : 0 < s.transcriptBuffer.count a := List.count_pos_iff.mpr ha
  have hle := hfr.2.2 a
  rw [hcontra, List.count_nil] at hle
  have hle' : s.transcriptBuffer.count a ≤ 0 := hle
  omega

def C10WitnessState : ClientState :=
  exec initState [Op.click,
    Op.rawUpdate ⟨JValue.str "a", JValue.num 4⟩,
    Op.rawUpdate ⟨JValue.str "b", JValue.num 5⟩]

theorem C10_error_frame_witness :
    (onProcessingError "oops" C10WitnessState).transcriptBuffer
      = C10WitnessState.transcriptBuffer
    ∧ (exec (onProcessingError "oops" C10WitnessState)
        [Op.tick 9 true, Op.disconnect]).transcriptBuffer ≠ [] :=
  ⟨(C10_error_frame C10WitnessState "oops"
      [Op.tick 9 true, Op.disconnect] (by decide)).1,
   (C10_error_frame C10WitnessState "oops"
      [Op.tick 9 true, Op.disconnect] (by decide)).2.2.2.2.2.2.1 (by decide)⟩

end ThirdEar
